import Mathlib

/-!
Verification of the Leads/POC export server (Express + DuckDB + Supabase).

Shallow embedding of the JavaScript source:
* `cleanPhoneNumber` (helper, `src/unnamed/part_000` lines 40-46),
* the `ROW_NUMBER() OVER (PARTITION BY company ORDER BY linkedin)` grouped
  limiter of the `/upload` route (lines 163-173),
* the per-row enrichment loop (lines 175-192),
* the `safeResults` transform and CSV quoting of `exportCSVAndUpload`
  (lines 53-63, 136-139),
* the bucket retention pruning (lines 86-96),
* the `parseInt`/truthiness input validation of `/upload` (lines 144-145),
* the paginated bulk exports `exportLeads` / `exportPocLevels`
  (`src/server.js` lines 52-135 and 168-246).

JavaScript dynamic values are modelled by `JSVal`; machine details that the
claims do not touch (float NaN payloads, Unicode whitespace classes of
`parseInt`) are noted next to the definitions that abstract them.
-/

/-- Model of a JavaScript runtime value, as far as the phone-lookup payload
can range over them: strings, (integer) numbers, NaN, booleans, `null`,
`undefined`, arrays, and other (non-array) objects collapsed to one
constructor since the code only ever asks `Array.isArray` / `typeof`. -/
inductive JSVal where
  | str : String → JSVal
  | num : Int → JSVal
  | nan : JSVal
  | boolean : Bool → JSVal
  | null : JSVal
  | undef : JSVal
  | arr : List JSVal → JSVal
  | object : JSVal

/-- JavaScript truthiness: `""`, `0`, `NaN`, `false`, `null`, `undefined`
are falsy; every other value (arrays and objects included) is truthy. -/
def jsTruthy : JSVal → Bool
  | .str s => s ≠ ""
  | .num n => n ≠ 0
  | .nan => false
  | .boolean b => b
  | .null => false
  | .undef => false
  | .arr _ => true
  | .object => true

/-- The JavaScript `a || b` operator: `b` when `a` is falsy, else `a`. -/
def jsOr (a b : JSVal) : JSVal := if jsTruthy a then a else b

/-- The reassignment `if (Array.isArray(phone) && phone.length > 0) phone = phone[0];`
from `cleanPhoneNumber`: a non-empty array is replaced by its first element,
everything else (empty arrays included) is left alone. -/
def unwrapPhone : JSVal → JSVal
  | .arr (x :: _) => x
  | v => v

/-- Character class of the regex `/[^\d+]/`: `replace(/[^\d+]/g, "")` keeps
exactly the decimal digits and every `+` character. -/
def keepPhoneChar (c : Char) : Bool := c.isDigit || c = '+'

/-- The global regex replacement `phone.replace(/[^\d+]/g, "")`, modelled as
a character-by-character scan dropping each match of `[^\d+]`. -/
def replaceNonPhoneChars : List Char → List Char
  | [] => []
  | c :: rest =>
      if keepPhoneChar c then c :: replaceNonPhoneChars rest
      else replaceNonPhoneChars rest

/-- The helper `cleanPhoneNumber` (`src/unnamed/part_000` lines 40-46): unwrap a
non-empty array to its first element; if the result is a string, strip every
character matching `[^\d+]`; otherwise return the literal `"Error"`. -/
def cleanPhoneNumber (phone : JSVal) : String :=
  match unwrapPhone phone with
  | .str s => String.mk (replaceNonPhoneChars s.data)
  | _ => "Error"

/-- Written from the specification text, for comparison with
`cleanPhoneNumber`: "if the field is an array, take its first element; if the
resulting value is not a string, emit sentinel `"Error"`; otherwise strip
every character that is not a digit or a leading `+`" — so a `+` survives
only in leading position of the raw string, and all digits survive. -/
def cleanPhoneNumberSpec (phone : JSVal) : String :=
  match unwrapPhone phone with
  | .str s =>
      (if s.data.head? = some '+' then ("+") else (""))
        ++ String.mk (s.data.filter Char.isDigit)
  | _ => "Error"

/-- Written from the amended specification text: as above but every `+`
character is kept (not only a leading one), matching `/[^\d+]/g`. -/
def cleanPhoneNumberAmended (phone : JSVal) : String :=
  match unwrapPhone phone with
  | .str s => String.mk (s.data.filter keepPhoneChar)
  | _ => "Error"

/-- An input row of the uploaded CSV, with the two columns the SQL query
names (`company`, `linkedin`) distinguished and the remaining columns kept
as an ordered association list. -/
structure CsvRow where
  company : String
  linkedin : String
  rest : List (String × String)
deriving DecidableEq

/-- The comparison behind `ORDER BY linkedin` (ascending), as lexicographic
code-point order on the character lists — the binary string collation. -/
def linkedinLe (a b : CsvRow) : Prop := a.linkedin.data ≤ b.linkedin.data

instance : DecidableRel linkedinLe :=
  fun a b => inferInstanceAs (Decidable (a.linkedin.data ≤ b.linkedin.data))

instance : IsTotal CsvRow linkedinLe := ⟨fun a b => le_total a.linkedin.data b.linkedin.data⟩

instance : IsTrans CsvRow linkedinLe := ⟨fun _ _ _ hab hbc => le_trans hab hbc⟩

/-- Rows of one partition: `PARTITION BY company` restricted to group `g`. -/
def groupRows (rows : List CsvRow) (g : String) : List CsvRow :=
  rows.filter (fun r => r.company = g)

/-- The distinct `company` values of the table, in first-appearance order
(the engine fixes no inter-group output order; this is one faithful order). -/
def companies (rows : List CsvRow) : List String :=
  (rows.map CsvRow.company).dedup

/-- One partition sorted by the window clause `ORDER BY linkedin` (any
ascending sort is a faithful model of the engine's `ORDER BY`). -/
def sortedGroup (rows : List CsvRow) (g : String) : List CsvRow :=
  (groupRows rows g).insertionSort linkedinLe

/-- A row of the subquery output: the original columns plus the window
column `rn` added by `ROW_NUMBER() OVER (...)`. -/
structure NumberedRow where
  base : CsvRow
  rn : Int
deriving DecidableEq

/-- Assignment of consecutive row numbers starting at `k` (`ROW_NUMBER()`
numbers each partition 1, 2, ... in the window order). -/
def numberFrom (k : Int) : List CsvRow → List NumberedRow
  | [] => []
  | r :: rs => ⟨r, k⟩ :: numberFrom (k + 1) rs

/-- The limiter query of the `/upload` route (`src/unnamed/part_000` lines
163-173): number the rows of each `company` partition in `linkedin` order
and keep those with `rn <= limit`. -/
def groupedLimit (rows : List CsvRow) (limit : Int) : List NumberedRow :=
  (companies rows).flatMap
    (fun g => (numberFrom 1 (sortedGroup rows g)).filter (fun r => r.rn ≤ limit))

/-- Outcome of one `axios.post` call to the phone-lookup service for one
row: `failure` when the promise rejects (network error, timeout, non-2xx
status, or any other throw inside the `try`), `success v` when it resolves
with `v` standing for `response.data.phone` (`undef` when the field is
absent from the body). -/
inductive LookupResult where
  | failure : LookupResult
  | success : JSVal → LookupResult

/-- An output row of the enrichment loop: the spread `{ ...row,
phonenumber: phone }` keeps every column of the limited row (including the
window column `rn`) and adds `phonenumber`. -/
structure EnrichedRow where
  base : CsvRow
  rn : Int
  phonenumber : String
deriving DecidableEq

/-- One iteration of the enrichment loop (`src/unnamed/part_000` lines
176-192): `phone` starts as `"Not Found"`; on a resolved call it becomes
`cleanPhoneNumber(rawPhone || "Not Found")`; a throw anywhere in the `try`
leaves the initial sentinel in place, and the loop continues either way. -/
def enrichRow (r : NumberedRow) (outcome : LookupResult) : EnrichedRow :=
  match outcome with
  | .failure => ⟨r.base, r.rn, "Not Found"⟩
  | .success raw => ⟨r.base, r.rn, cleanPhoneNumber (jsOr raw (.str ("Not Found")))⟩

/-- The whole enrichment loop: strictly row-sequential, the `i`-th row's
outcome given by the oracle at index `i`; one output row is pushed per
input row unconditionally. -/
def enrichAll (rows : List NumberedRow) (oracle : Nat → LookupResult) : List EnrichedRow :=
  rows.enum.map (fun p => enrichRow p.2 (oracle p.1))

/-- A row of `safeResults` (`src/unnamed/part_000` lines 53-63): the rest
destructuring `const { rn, ...rest } = row` has removed the window column,
and `phonenumber` has been rewritten by the ternary. -/
structure SafeRow where
  base : CsvRow
  phonenumber : String
deriving DecidableEq

/-- The Excel-safe wrapping of a phone value used by `safeResults`. -/
def excelWrap (v : String) : String := ("=\"") ++ v ++ ("\"")

/-- The `safeResults` map: drop `rn`, and replace `phonenumber` by
`` `="${row.phonenumber}"` `` when the string is truthy (non-empty) and by
`""` otherwise; `cleanPhoneNumber` is not applied here (the cleaned variant
is commented out in the source). -/
def safeRow (r : EnrichedRow) : SafeRow :=
  ⟨r.base, if r.phonenumber ≠ ("") then excelWrap r.phonenumber else ("")⟩

/-- The enumerable fields of an uploaded row object, in insertion order. -/
def CsvRow.fieldList (r : CsvRow) : List (String × String) :=
  (("company"), r.company) :: (("linkedin"), r.linkedin) :: r.rest

/-- The enumerable fields of an enriched row object: the original columns,
then the window column `rn`, then the appended `phonenumber`. -/
def EnrichedRow.fieldList (r : EnrichedRow) : List (String × String) :=
  r.base.fieldList ++ [(("rn"), toString r.rn), (("phonenumber"), r.phonenumber)]

/-- The enumerable fields of a `safeResults` row object. -/
def SafeRow.fieldList (s : SafeRow) : List (String × String) :=
  s.base.fieldList ++ [(("phonenumber"), s.phonenumber)]

/-- The CSV quote-escaping used by both serializers: each `"` inside a
field is doubled. -/
def csvEscape (l : List Char) : List Char :=
  l.flatMap (fun c => if c = '"' then ['"', '"'] else [c])

/-- One serialized cell under `quoteColumns: true` of `writeToStream`
(`src/unnamed/part_000` lines 136-139): the escaped value surrounded by
quote characters. -/
def csvCell (s : String) : List Char := ('"' :: csvEscape s.data) ++ ['"']

/-- One serialized data row of the enrichment output: every field value
quoted. -/
def renderSafeRow (s : SafeRow) : List (List Char) :=
  s.fieldList.map (fun p => csvCell p.2)

/-- An object of the `hatch-exports` bucket as the storage `list` call
returns it: a name and a creation time (epoch milliseconds stand in for
the `created_at` date string). -/
structure StorageObj where
  name : String
  created_at : Nat
deriving DecidableEq

/-- The comparator `(a, b) => new Date(b.created_at) - new Date(a.created_at)`:
sorting with it orders by creation time descending. -/
def createdDesc (a b : StorageObj) : Prop := b.created_at ≤ a.created_at

instance : DecidableRel createdDesc :=
  fun a b => inferInstanceAs (Decidable (b.created_at ≤ a.created_at))

instance : IsTotal StorageObj createdDesc := ⟨fun a b => le_total b.created_at a.created_at⟩

instance : IsTrans StorageObj createdDesc := ⟨fun _ _ _ hab hbc => le_trans hbc hab⟩

/-- The listing step `list("", { limit: 100 })`: up to 100 objects of the
bucket. -/
def listBucket (bucket : List StorageObj) : List StorageObj := bucket.take 100

/-- The listing sorted newest-first (`listData.sort(...)`). -/
def sortByCreatedDesc (l : List StorageObj) : List StorageObj := l.insertionSort createdDesc

/-- The retention pruning of `exportCSVAndUpload` (`src/unnamed/part_000`
lines 86-96): `.slice(3)` of the newest-first listing, i.e. every object
beyond the three most recent, is removed one by one (the result object of
each `remove` call is discarded, so a storage-reported failure has no
effect on the already-chosen response). -/
def retentionDeleted (listData : List StorageObj) : List StorageObj :=
  (sortByCreatedDesc listData).drop 3

/-- The objects the pruning keeps: the first three of the newest-first
listing. -/
def retentionKept (listData : List StorageObj) : List StorageObj :=
  (sortByCreatedDesc listData).take 3

/-- A record of the primary datastore (`Leads` or `POC-Data` table), as the
paginated `select("*")` returns it: the tenant column `client_id` plus the
remaining columns as an ordered association list. -/
structure DbRow where
  client_id : String
  fields : List (String × String)
deriving DecidableEq

/-- The keys of a datastore row object (`Object.keys(row)`). -/
def DbRow.keyList (r : DbRow) : List String :=
  ("client_id") :: r.fields.map Prod.fst

/-- The values of a datastore row object (`Object.values(row)`). -/
def DbRow.valueList (r : DbRow) : List String :=
  r.client_id :: r.fields.map Prod.snd

/-- One bulk-export cell: the stringified value with each inner quote
doubled, surrounded by quote characters. -/
def jsQuoteCell (v : String) : String :=
  ("\"") ++ String.mk (csvEscape v.data) ++ ("\"")

/-- The bulk-export header line: `Object.keys(data[0]).join(",") + "\n"`. -/
def headerLine (r : DbRow) : String :=
  String.intercalate (",") r.keyList ++ ("\n")

/-- One bulk-export data line: quoted values joined by commas plus a
newline. -/
def rowLine (r : DbRow) : String :=
  String.intercalate (",") (r.valueList.map jsQuoteCell) ++ ("\n")

/-- The fixed page size of both bulk exports. -/
def pageSize : Nat := 1000

/-- The rows of the table matching the equality filter
`.eq("client_id", clientId)`, in storage-assigned order. -/
def matchingRows (table : List DbRow) (cid : String) : List DbRow :=
  table.filter (fun r => r.client_id = cid)

/-- One `range(from, to)` fetch of the filtered rows: `from = page * 1000`,
`to = from + 999` inclusive. -/
def fetchPage (rows : List DbRow) (page : Nat) : List DbRow :=
  (rows.drop (page * pageSize)).take pageSize

/-- The `while (true)` pagination loop shared by `exportLeads` and
`exportPocLevels` (`src/server.js` lines 63-95 and 179-211): fetch the
current page; stop on an empty page; write the header from the first row
of the first non-empty page; append one line per row; recurse to the next
page only when the page held exactly `pageSize` rows. -/
def exportPages (rows : List DbRow) (page : Nat) (headersWritten : Bool) : List String :=
  match hf : fetchPage rows page with
  | [] => []
  | r0 :: rdata =>
      (if headersWritten then [] else [headerLine r0])
      ++ (r0 :: rdata).map rowLine
      ++ (if h2 : (r0 :: rdata).length < pageSize then []
          else exportPages rows (page + 1) true)
termination_by rows.length - page * pageSize
decreasing_by
  have hlen : (fetchPage rows page).length = min pageSize (rows.length - page * pageSize) := by
    simp [fetchPage]
  rw [hf] at hlen
  simp [pageSize] at hlen h2 ⊢
  omega

/-- The accumulated `csvParts` buffer of one bulk-export run, as the list
of emitted CSV lines. -/
def exportBuffer (table : List DbRow) (cid : String) : List String :=
  exportPages (matchingRows table cid) 0 false

/-- The `exportLeads` variant (`src/server.js` lines 52-135): an empty
buffer is a silent no-op (`console.warn` and a bare `return`, so no upload
and no `{ fileName, downloadUrl }` for the route to redirect to); a
non-empty buffer is uploaded and returned. -/
def exportLeadsRun (table : List DbRow) (cid : String) : Option (List String) :=
  let buf := exportBuffer table cid
  if buf.isEmpty then none else some buf

/-- The `exportPocLevels` variant (`src/server.js` lines 168-246): an empty
buffer raises `` `No data found for client_id: ${clientId}` ``; a non-empty
buffer is uploaded and returned. -/
def exportPocRun (table : List DbRow) (cid : String) : Except String (List String) :=
  let buf := exportBuffer table cid
  if buf.isEmpty then Except.error (("No data found for client_id: ") ++ cid)
  else Except.ok buf

/-- ASCII whitespace skipped by `parseInt` (the full JavaScript rule also
skips Unicode space separators, which no claim exercises). -/
def jsWhitespace (c : Char) : Bool :=
  c = ' ' || c = '\t' || c = '\n' || c = '\r' || c = '\x0b' || c = '\x0c'

/-- Numeric value of a hexadecimal digit character. -/
def hexDigitVal (c : Char) : Nat :=
  if c.isDigit then c.toNat - 48
  else if ('a' ≤ c && c ≤ 'f') then c.toNat - 87
  else c.toNat - 55

/-- Hexadecimal digit test for the `0x` form of `parseInt`. -/
def isHexDigitJS (c : Char) : Bool :=
  c.isDigit || ('a' ≤ c && c ≤ 'f') || ('A' ≤ c && c ≤ 'F')

/-- Value of a digit run under the given base, most significant first. -/
def digitsToNat (base : Nat) (l : List Char) : Nat :=
  l.foldl (fun acc c => acc * base + hexDigitVal c) 0

/-- Model of JavaScript `parseInt(string)` with no radix argument
(`src/unnamed/part_000` line 144): skip leading whitespace, read an
optional sign, then either a `0x`/`0X` hexadecimal digit run or a decimal
digit run, ignoring any trailing characters; `none` models `NaN` (no
digits at all). -/
def parseIntJS (s : String) : Option Int :=
  let cs := s.data.dropWhile jsWhitespace
  let signed : Int × List Char :=
    match cs with
    | '+' :: r => (1, r)
    | '-' :: r => (-1, r)
    | r => (1, r)
  match signed.2 with
  | '0' :: c :: r =>
      if c = 'x' || c = 'X' then
        let ds := r.takeWhile isHexDigitJS
        if ds.isEmpty then none else some (signed.1 * (digitsToNat 16 ds : Int))
      else
        let ds := (('0' : Char) :: c :: r).takeWhile Char.isDigit
        if ds.isEmpty then none else some (signed.1 * (digitsToNat 10 ds : Int))
  | r =>
      let ds := r.takeWhile Char.isDigit
      if ds.isEmpty then none else some (signed.1 * (digitsToNat 10 ds : Int))

/-- JavaScript falsiness of the parsed limit: `!limit` is true exactly for
`NaN` (here `none`) and `0`. -/
def limitFalsy : Option Int → Bool
  | none => true
  | some n => n == 0

/-- The `/upload` input validation (`src/unnamed/part_000` lines 144-145):
`if (!limit || !req.file) return res.status(400).send("Invalid input.")`.
The result is `true` exactly when the request is rejected with HTTP 400
before any processing. -/
def uploadRejected (limitStr : String) (hasFile : Bool) : Bool :=
  limitFalsy (parseIntJS limitStr) || !hasFile

/-- Concrete rows used by the witnesses: two companies, three rows. -/
def demoRowA1 : CsvRow := ⟨("Acme"), ("lnk-a1"), []⟩

/-- Second Acme row, larger tie-break key. -/
def demoRowA2 : CsvRow := ⟨("Acme"), ("lnk-a2"), []⟩

/-- Single row of the second company. -/
def demoRowB1 : CsvRow := ⟨("Bolt"), ("lnk-b1"), []⟩

/-- Witness table: Acme rows out of tie-break order around the Bolt row. -/
def demoRows : List CsvRow := [demoRowA2, demoRowB1, demoRowA1]

/-- A limited row as the enrichment loop receives it. -/
def demoNumbered : NumberedRow := ⟨demoRowA1, 1⟩

/-- A bucket listing holding four artifacts, oldest first by upload time. -/
def demoBucket4 : List StorageObj :=
  [⟨("hatch_result_1.csv"), 100⟩, ⟨("hatch_result_2.csv"), 200⟩,
   ⟨("hatch_result_3.csv"), 300⟩, ⟨("hatch_result_4.csv"), 400⟩]

/-- A datastore row of tenant `c1` used by the witnesses. -/
def demoLead : DbRow := ⟨("c1"), [(("name"), ("x"))]⟩

/-- A two-tenant table used by the witnesses. -/
def demoTable : List DbRow := [demoLead, ⟨("c2"), []⟩]

lemma replaceNonPhoneChars_eq_filter (l : List Char) :
    replaceNonPhoneChars l = l.filter keepPhoneChar := by
  induction l with
  | nil => rfl
  | cons c rest ih =>
      by_cases h : keepPhoneChar c = true
      · simp [replaceNonPhoneChars, List.filter, h, ih]
      · simp [replaceNonPhoneChars, List.filter, h, ih]

/-- Claim C3, counterexample: on `"1+2"` the code keeps the interior `+`
(`/[^\d+]/g` keeps every `+`) while the spec's reference definition keeps a
leading `+` only, so the two functions differ. -/
theorem cleanPhone_spec_divergence :
    cleanPhoneNumber (.str ("1+2")) = ("1+2")
    ∧ cleanPhoneNumberSpec (.str ("1+2")) = ("12")
    ∧ cleanPhoneNumber (.str ("1+2")) ≠ cleanPhoneNumberSpec (.str ("1+2")) :=
  ⟨by decide, by decide, by decide⟩

/-- Claim C3, amended: the phone-cleaning function equals the reference
definition that keeps all digits and every `+` character (not only a
leading one); the claim's two examples hold as stated. -/
theorem cleanPhone_amended_ref :
    (∀ v, cleanPhoneNumber v = cleanPhoneNumberAmended v)
    ∧ cleanPhoneNumber (.str ("+1 (415) 555-0100")) = ("+14155550100")
    ∧ cleanPhoneNumber (.arr [.num 42]) = ("Error")
    ∧ cleanPhoneNumber .object = ("Error") := by
  refine ⟨fun v => ?_, by decide, by decide, by decide⟩
  cases hv : unwrapPhone v <;>
    simp [cleanPhoneNumber, cleanPhoneNumberAmended, hv, replaceNonPhoneChars_eq_filter]

/-- Claim C10: the phone-cleaning function is total; on any value that
unwraps to a string the result has only digit and `+` characters and is
never the word `"Error"`; the literal `"Error"` is returned exactly when
the unwrapped value is not a string. -/
theorem cleanPhone_total_characterization (v : JSVal) :
    (∀ s, unwrapPhone v = .str s →
        (∀ c ∈ (cleanPhoneNumber v).data, c.isDigit ∨ c = '+')
        ∧ cleanPhoneNumber v ≠ ("Error"))
    ∧ ((∀ s, unwrapPhone v ≠ .str s) → cleanPhoneNumber v = ("Error")) := by
  constructor
  · intro s hs
    have hval : cleanPhoneNumber v = String.mk (s.data.filter keepPhoneChar) := by
      unfold cleanPhoneNumber
      rw [hs]
      show String.mk (replaceNonPhoneChars s.data) = _
      rw [replaceNonPhoneChars_eq_filter]
    constructor
    · intro c hc
      rw [hval] at hc
      have hmem : c ∈ s.data.filter keepPhoneChar := hc
      have hk := List.of_mem_filter hmem
      simpa [keepPhoneChar] using hk
    · intro heq
      have hE : ('E' : Char) ∈ (cleanPhoneNumber v).data := by
        rw [heq]; decide
      rw [hval] at hE
      have hmem : ('E' : Char) ∈ s.data.filter keepPhoneChar := hE
      have hk := List.of_mem_filter hmem
      simp [keepPhoneChar] at hk
  · intro h
    cases hv : unwrapPhone v <;>
      first
        | exact absurd hv (h _)
        | (unfold cleanPhoneNumber; rw [hv])

/-- Witness for C10 at a concrete string and a concrete non-string. -/
theorem cleanPhone_total_characterization_witness :
    ((∀ c ∈ (cleanPhoneNumber (.str ("a+1"))).data, c.isDigit ∨ c = '+')
      ∧ cleanPhoneNumber (.str ("a+1")) ≠ ("Error"))
    ∧ cleanPhoneNumber (.arr []) = ("Error") :=
  ⟨(cleanPhone_total_characterization (.str ("a+1"))).1 ("a+1") rfl,
   (cleanPhone_total_characterization (.arr [])).2 (fun _ h => JSVal.noConfusion h)⟩

/-- Claim C4: the code path for a successful lookup whose body has no
usable phone value. `rawPhone || "Not Found"` substitutes the sentinel,
but it is then passed through `cleanPhoneNumber`, which strips every
non-digit character of `"Not Found"`, leaving `""` — not the sentinel the
spec promises. -/
theorem enrichment_not_found_mangled :
    (enrichRow demoNumbered (.success .undef)).phonenumber = ("")
    ∧ (enrichRow demoNumbered (.success (.str ("")))).phonenumber = ("")
    ∧ cleanPhoneNumber (.str ("Not Found")) = ("")
    ∧ ("" : String) ≠ ("Not Found") :=
  ⟨by decide, by decide, by decide, by decide⟩

/-- Claim C1: the enrichment loop produces exactly one output row per
retained input row — whatever the oracle says the lookup did for each row
(reject, resolve with a non-string, an array of non-strings, anything) —
and the output row at index `i` keeps all the original columns and the
window column and carries the `phonenumber` value determined by row `i`'s
own outcome alone, so one row's failure never disturbs the others. -/
theorem enrichment_total_per_row (rows : List NumberedRow) (oracle : Nat → LookupResult)
    (i : Nat) (h : i < rows.length) :
    (enrichAll rows oracle).length = rows.length
    ∧ ∀ (h2 : i < (enrichAll rows oracle).length),
        ((enrichAll rows oracle).get ⟨i, h2⟩).base = (rows.get ⟨i, h⟩).base
        ∧ ((enrichAll rows oracle).get ⟨i, h2⟩).rn = (rows.get ⟨i, h⟩).rn
        ∧ ((enrichAll rows oracle).get ⟨i, h2⟩).phonenumber
            = (match oracle i with
               | .failure => ("Not Found")
               | .success raw => cleanPhoneNumber (jsOr raw (.str ("Not Found")))) := by
  refine ⟨by simp [enrichAll], fun h2 => ?_⟩
  have hval : (enrichAll rows oracle).get ⟨i, h2⟩
      = enrichRow (rows.get ⟨i, h⟩) (oracle i) := by
    simp [enrichAll, List.get_eq_getElem, List.getElem_map, List.getElem_enum]
  rw [hval]
  cases oracle i <;> simp [enrichRow]

/-- Witness for C1: a one-row batch whose only lookup fails still yields
one output row with the original fields and the failure sentinel. -/
theorem enrichment_total_per_row_witness :
    (enrichAll [demoNumbered] (fun _ => LookupResult.failure)).length = 1
    ∧ ((enrichAll [demoNumbered] (fun _ => LookupResult.failure)).get
        ⟨0, by decide⟩).base = demoRowA1
    ∧ ((enrichAll [demoNumbered] (fun _ => LookupResult.failure)).get
        ⟨0, by decide⟩).phonenumber = ("Not Found") := by
  have h := enrichment_total_per_row [demoNumbered] (fun _ => LookupResult.failure) 0 (by decide)
  have h2 := h.2 (by decide)
  exact ⟨h.1, h2.1, h2.2.2⟩

lemma numberFrom_map_base (k : Int) (l : List CsvRow) :
    (numberFrom k l).map NumberedRow.base = l := by
  induction l generalizing k with
  | nil => rfl
  | cons r rs ih => simp [numberFrom, ih]

lemma numberFrom_length (k : Int) (l : List CsvRow) :
    (numberFrom k l).length = l.length := by
  induction l generalizing k with
  | nil => rfl
  | cons r rs ih => simp [numberFrom, ih]

lemma mem_numberFrom_base {x : NumberedRow} {l : List CsvRow} :
    ∀ {k : Int}, x ∈ numberFrom k l → x.base ∈ l := by
  induction l with
  | nil => intro k h; cases h
  | cons r rs ih =>
      intro k h
      cases h with
      | head => exact List.mem_cons_self _ _
      | tail b h => exact List.mem_cons_of_mem _ (ih h)

lemma numberFrom_filter_le (n : Int) :
    ∀ (l : List CsvRow) (k : Int),
      (numberFrom k l).filter (fun r => decide (r.rn ≤ n))
        = numberFrom k (l.take (n - k + 1).toNat) := by
  intro l
  induction l with
  | nil => intro k; simp [numberFrom]
  | cons r rs ih =>
      intro k
      by_cases hk : k ≤ n
      · have ht : (n - k + 1).toNat = (n - (k + 1) + 1).toNat + 1 := by omega
        rw [ht, List.take_succ_cons]
        show List.filter _ (⟨r, k⟩ :: numberFrom (k + 1) rs) = _
        rw [List.filter_cons_of_pos (by simpa using hk), ih (k + 1)]
        rfl
      · have ht : (n - k + 1).toNat = 0 := by omega
        rw [ht]
        show List.filter _ (⟨r, k⟩ :: numberFrom (k + 1) rs) = _
        rw [List.filter_cons_of_neg (by simpa using hk), ih (k + 1)]
        have ht2 : (n - (k + 1) + 1).toNat = 0 := by omega
        rw [ht2]
        rfl

lemma filter_flatMap_key {α : Type} (key : α → String) (G : String) (f : String → List α) :
    ∀ (gs : List String), gs.Nodup → (∀ g, ∀ x ∈ f g, key x = g) →
      (gs.flatMap f).filter (fun x => decide (key x = G))
        = if G ∈ gs then f G else [] := by
  intro gs
  induction gs with
  | nil => intro _ _; simp
  | cons g gs ih =>
      intro hnd hkey
      obtain ⟨hg_notin, hnd2⟩ := List.nodup_cons.mp hnd
      rw [List.flatMap_cons, List.filter_append, ih hnd2 hkey]
      by_cases hg : g = G
      · subst hg
        have h1 : (f g).filter (fun x => decide (key x = g)) = f g :=
          List.filter_eq_self.mpr (fun x hx => by simp [hkey g x hx])
        rw [h1]
        simp [hg_notin]
      · have h1 : (f g).filter (fun x => decide (key x = G)) = [] := by
          rw [List.filter_eq_nil_iff]
          intro x hx
          simp [hkey g x hx]
          exact hg
        rw [h1, List.nil_append]
        by_cases hGgs : G ∈ gs <;> simp [hGgs, Ne.symm hg]

lemma mem_sortedGroup_company {rows : List CsvRow} {g : String} {r : CsvRow}
    (h : r ∈ sortedGroup rows g) : r.company = g := by
  have h2 : r ∈ groupRows rows g := (List.perm_insertionSort linkedinLe _).mem_iff.mp h
  have h3 := List.of_mem_filter h2
  simpa using h3

lemma groupRows_eq_nil {rows : List CsvRow} {G : String} (h : G ∉ companies rows) :
    groupRows rows G = [] := by
  rw [groupRows, List.filter_eq_nil_iff]
  intro r hr
  simp only [decide_eq_true_eq]
  intro hc
  exact h (List.mem_dedup.mpr (List.mem_map.mpr ⟨r, hr, hc⟩))

lemma groupedLimit_filter_eq (rows : List CsvRow) (n : Int) (G : String) :
    (groupedLimit rows n).filter (fun r => decide (r.base.company = G))
      = numberFrom 1 ((sortedGroup rows G).take n.toNat) := by
  have hkey : ∀ g, ∀ x ∈ (numberFrom 1 (sortedGroup rows g)).filter
      (fun r => decide (r.rn ≤ n)), x.base.company = g := by
    intro g x hx
    exact mem_sortedGroup_company (mem_numberFrom_base (List.mem_filter.mp hx).1)
  have h := filter_flatMap_key (fun x => x.base.company) G
    (fun g => (numberFrom 1 (sortedGroup rows g)).filter (fun r => decide (r.rn ≤ n)))
    (companies rows) (List.nodup_dedup _) hkey
  rw [groupedLimit, h]
  by_cases hG : G ∈ companies rows
  · rw [if_pos hG]
    show (numberFrom 1 (sortedGroup rows G)).filter (fun r => decide (r.rn ≤ n)) = _
    rw [numberFrom_filter_le]
    have ht : (n - 1 + 1).toNat = n.toNat := by omega
    rw [ht]
  · rw [if_neg hG]
    have h0 : groupRows rows G = [] := groupRows_eq_nil hG
    have h1 : sortedGroup rows G = [] := by rw [sortedGroup, h0]; rfl
    rw [h1, List.take_nil]
    rfl

/-- Claim C2: for every group value G and positive limit N the limiter
output has at most N rows of company G; stripped of the window column they
are exactly the first N of the group in ascending `linkedin` order — the
sorted sequence being a permutation of the whole group — hence the N
smallest by the tie-break key, or the whole group when it has fewer than N
rows. -/
theorem grouped_limiter_spec (rows : List CsvRow) (n : Int) (G : String) (hn : 0 < n) :
    ((groupedLimit rows n).filter (fun r => r.base.company = G)).length ≤ n.toNat
    ∧ ((groupedLimit rows n).filter (fun r => r.base.company = G)).map NumberedRow.base
        = (sortedGroup rows G).take n.toNat
    ∧ List.Pairwise (fun a b => a.linkedin.data ≤ b.linkedin.data) (sortedGroup rows G)
    ∧ (sortedGroup rows G).Perm (groupRows rows G)
    ∧ ((groupRows rows G).length ≤ n.toNat →
        ((groupedLimit rows n).filter (fun r => r.base.company = G)).map NumberedRow.base
          = sortedGroup rows G) := by
  have hmain := groupedLimit_filter_eq rows n G
  refine ⟨?_, ?_, ?_, ?_, ?_⟩
  · rw [hmain, numberFrom_length, List.length_take]
    exact min_le_left _ _
  · rw [hmain, numberFrom_map_base]
  · exact (List.sorted_insertionSort linkedinLe (groupRows rows G)).imp (fun h => h)
  · exact List.perm_insertionSort _ _
  · intro hle
    rw [hmain, numberFrom_map_base]
    apply List.take_of_length_le
    calc (sortedGroup rows G).length
        = (groupRows rows G).length := (List.perm_insertionSort _ _).length_eq
      _ ≤ n.toNat := hle

/-- Witness for C2: three rows over two companies, limit 1 — the Acme
partition keeps exactly its tie-break minimum. -/
theorem grouped_limiter_spec_witness :
    ((groupedLimit demoRows 1).filter (fun r => r.base.company = ("Acme"))).map
        NumberedRow.base = [demoRowA1]
    ∧ ((groupedLimit demoRows 1).filter (fun r => r.base.company = ("Acme"))).length
        ≤ (1 : Int).toNat := by
  have h := grouped_limiter_spec demoRows 1 ("Acme") (by decide)
  refine ⟨?_, h.1⟩
  rw [h.2.1]
  decide

/-- Claim C6: the pruning deletes exactly the objects beyond the first 3 of
the newest-first listing (kept ++ deleted is the sorted listing, a
permutation of it), keeps `min 3` of them, every deleted object is at least
as old as every kept one, a 4-object listing loses exactly one object, and
in the concrete 4-artifact bucket the single deleted object is the oldest
while the 3 most recent remain. -/
theorem retention_keeps_three_most_recent (l : List StorageObj) :
    retentionKept l ++ retentionDeleted l = sortByCreatedDesc l
    ∧ (sortByCreatedDesc l).Perm l
    ∧ (retentionKept l).length = min 3 l.length
    ∧ (∀ d ∈ retentionDeleted l, ∀ k ∈ retentionKept l, d.created_at ≤ k.created_at)
    ∧ (l.length = 4 → (retentionDeleted l).length = 1)
    ∧ retentionDeleted (listBucket demoBucket4) = [⟨("hatch_result_1.csv"), 100⟩]
    ∧ retentionKept (listBucket demoBucket4)
        = [⟨("hatch_result_4.csv"), 400⟩, ⟨("hatch_result_3.csv"), 300⟩,
           ⟨("hatch_result_2.csv"), 200⟩] := by
  have hperm : (sortByCreatedDesc l).Perm l := List.perm_insertionSort _ _
  refine ⟨List.take_append_drop _ _, hperm, ?_, ?_, ?_, by decide, by decide⟩
  · rw [retentionKept, List.length_take, hperm.length_eq]
  · intro d hd k hk
    have hp : List.Pairwise createdDesc (sortByCreatedDesc l) :=
      List.sorted_insertionSort createdDesc l
    rw [← List.take_append_drop 3 (sortByCreatedDesc l)] at hp
    have hcross := (List.pairwise_append.mp hp).2.2
    exact hcross k hk d hd
  · intro h4
    rw [retentionDeleted, List.length_drop, hperm.length_eq, h4]

/-- Witness for C6 at the concrete 4-artifact bucket. -/
theorem retention_keeps_three_most_recent_witness :
    (retentionDeleted (listBucket demoBucket4)).length = 1
    ∧ retentionKept (listBucket demoBucket4) ++ retentionDeleted (listBucket demoBucket4)
        = sortByCreatedDesc (listBucket demoBucket4) := by
  have h := retention_keeps_three_most_recent (listBucket demoBucket4)
  exact ⟨h.2.2.2.2.1 (by decide), h.1⟩

/-- Claim C7, counterexample: a row the enrichment pipeline actually
produces (successful lookup, absent phone field) reaches the serializer
with `phonenumber = ""`, and the ternary emits it bare (falsy branch), not
in the `="<value>"` wrapping the claim asserts for every output row. -/
theorem safe_phone_not_wrapped :
    (safeRow (enrichRow demoNumbered (.success .undef))).phonenumber = ("")
    ∧ (safeRow (enrichRow demoNumbered (.success .undef))).phonenumber
        ≠ excelWrap (enrichRow demoNumbered (.success .undef)).phonenumber :=
  ⟨by decide, by decide⟩

/-- Claim C7, amended: serialized rows never carry the `rn` key (though the
intermediate enriched record does carry it); a non-empty phone value is
wrapped as `="<value>"` while an empty one is emitted as the empty string;
and every rendered cell is quoted. -/
theorem safe_results_serialization (r : EnrichedRow)
    (hrn : ∀ p ∈ r.base.rest, p.1 ≠ ("rn")) :
    (∀ p ∈ (safeRow r).fieldList, p.1 ≠ ("rn"))
    ∧ ((("rn") , toString r.rn) ∈ r.fieldList)
    ∧ (r.phonenumber ≠ ("") → (safeRow r).phonenumber = excelWrap r.phonenumber)
    ∧ (r.phonenumber = ("") → (safeRow r).phonenumber = (""))
    ∧ ∀ cell ∈ renderSafeRow (safeRow r), cell.head? = some '"' ∧ cell.getLast? = some '"' := by
  refine ⟨?_, ?_, ?_, ?_, ?_⟩
  · intro p hp
    simp only [SafeRow.fieldList, CsvRow.fieldList, safeRow, List.mem_append,
      List.mem_cons, List.mem_singleton] at hp
    rcases hp with (h | h | h) | (h | h)
    · subst h; simp
    · subst h; simp
    · exact hrn p h
    · subst h; simp
    · cases h
  · simp [EnrichedRow.fieldList]
  · intro h
    simp [safeRow, h]
  · intro h
    simp [safeRow, h]
  · intro cell hc
    rcases List.mem_map.mp hc with ⟨p, _, hcell⟩
    subst hcell
    exact ⟨rfl, List.getLast?_concat _⟩

/-- Witness for C7 at a failed-lookup row: no `rn` key survives and the
sentinel is wrapped. -/
theorem safe_results_serialization_witness :
    (∀ p ∈ (safeRow (enrichRow demoNumbered .failure)).fieldList, p.1 ≠ ("rn"))
    ∧ (safeRow (enrichRow demoNumbered .failure)).phonenumber = excelWrap ("Not Found") := by
  have h := safe_results_serialization (enrichRow demoNumbered .failure)
    (by intro p hp; cases hp)
  exact ⟨h.1, h.2.2.1 (by decide)⟩

/-- Claim C5, counterexample: `parseInt("-1")` is `-1`, which is truthy, so
`!limit` is false and a request with a negative limit and a file present is
not rejected — validation does not stop every negative integer limit. -/
theorem upload_negative_limit_passes :
    parseIntJS ("-1") = some (-1)
    ∧ uploadRejected ("-1") true = false :=
  ⟨by decide, by decide⟩

/-- Claim C5, amended: the route rejects with 400 exactly when the limit
parses to `NaN` or `0` or the file is missing; a limit that parses to any
non-zero value (negative ones included) passes validation with a file
present, and with a non-positive limit the limiter then retains no rows at
all (every row number is at least 1). -/
theorem upload_validation_spec (s : String) (f : Bool) :
    (uploadRejected s f = true ↔ parseIntJS s = none ∨ parseIntJS s = some 0 ∨ f = false)
    ∧ (∀ n : Int, parseIntJS s = some n → n ≠ 0 → f = true → uploadRejected s f = false)
    ∧ (∀ n : Int, n ≤ 0 → ∀ rows, groupedLimit rows n = []) := by
  refine ⟨?_, ?_, ?_⟩
  · cases h : parseIntJS s with
    | none => cases f <;> simp [uploadRejected, limitFalsy, h]
    | some n => cases f <;> simp [uploadRejected, limitFalsy, h, beq_iff_eq]
  · intro n hn hnz hf
    subst hf
    simp [uploadRejected, limitFalsy, hn, hnz]
  · intro n hneg rows
    have hchunk : ∀ g,
        (numberFrom 1 (sortedGroup rows g)).filter (fun r => decide (r.rn ≤ n)) = [] := by
      intro g
      rw [numberFrom_filter_le]
      have ht : (n - 1 + 1).toNat = 0 := by omega
      rw [ht, List.take_zero]
      rfl
    have hall : ∀ gs : List String,
        gs.flatMap (fun g =>
          (numberFrom 1 (sortedGroup rows g)).filter (fun r => decide (r.rn ≤ n))) = [] := by
      intro gs
      induction gs with
      | nil => rfl
      | cons g gs ih => rw [List.flatMap_cons, hchunk, List.nil_append, ih]
    exact hall _

/-- Witness for C5 amended: limit "-1" with a file passes validation and
retains nothing. -/
theorem upload_validation_spec_witness :
    uploadRejected ("-1") true = false ∧ groupedLimit demoRows (-1) = [] := by
  have h := upload_validation_spec ("-1") true
  exact ⟨h.2.1 (-1) (by decide) (by decide) rfl, h.2.2 (-1) (by decide) demoRows⟩

lemma exportPages_true_eq (rows : List DbRow) :
    ∀ (m page : Nat), rows.length - page * pageSize ≤ m →
      exportPages rows page true = (rows.drop (page * pageSize)).map rowLine := by
  intro m
  induction m with
  | zero =>
      intro page hp
      have hd : rows.drop (page * pageSize) = [] := List.drop_eq_nil_of_le (by omega)
      have hf : fetchPage rows page = [] := by simp [fetchPage, hd]
      rw [exportPages, hf]
      simp [hd]
  | succ m ih =>
      intro page hp
      rw [exportPages]
      split
      next heq =>
        have heq2 : (rows.drop (page * pageSize)).take pageSize = [] := heq
        have hd : rows.drop (page * pageSize) = [] := by
          rcases List.take_eq_nil_iff.mp heq2 with h | h
          · exact absurd h (by simp [pageSize])
          · exact h
        rw [hd]
        rfl
      next r0 rdata heq =>
        have hdl : (List.drop (page * pageSize) rows).length = rows.length - page * pageSize :=
          List.length_drop _ _
        have hlen : (r0 :: rdata).length = min pageSize (rows.length - page * pageSize) := by
          rw [← heq]
          simp [fetchPage, List.length_take, hdl]
        by_cases h2 : (r0 :: rdata).length < pageSize
        · rw [dif_pos h2]
          have hdrop : rows.drop (page * pageSize) = r0 :: rdata := by
            rw [← heq]
            exact (List.take_of_length_le (by rw [hdl]; omega)).symm
          simp [hdrop]
        · rw [dif_neg h2]
          have hrec := ih (page + 1)
            (by simp only [pageSize] at hp hlen h2 ⊢; omega)
          have hsplit : rows.drop (page * pageSize)
              = (r0 :: rdata) ++ rows.drop ((page + 1) * pageSize) := by
            rw [← heq]
            show rows.drop (page * pageSize)
                = (rows.drop (page * pageSize)).take pageSize
                  ++ rows.drop ((page + 1) * pageSize)
            rw [Nat.succ_mul, ← List.drop_drop, List.take_append_drop]
          rw [hrec, hsplit]
          simp

lemma exportPages_start (rows : List DbRow) :
    exportPages rows 0 false =
      (match rows with
       | [] => []
       | r0 :: _ => headerLine r0 :: rows.map rowLine) := by
  cases rows with
  | nil =>
      rw [exportPages]
      have hf : fetchPage ([] : List DbRow) 0 = [] := by simp [fetchPage]
      rw [hf]
  | cons r0 rtl =>
      have hps : pageSize = 999 + 1 := rfl
      have hf : fetchPage (r0 :: rtl) 0 = r0 :: rtl.take 999 := by
        show ((r0 :: rtl).drop (0 * pageSize)).take pageSize = _
        rw [Nat.zero_mul, List.drop_zero, hps, List.take_succ_cons]
      rw [exportPages]
      split
      next heq =>
        rw [hf] at heq
        exact List.noConfusion heq
      next r1 rdata heq =>
        rw [hf] at heq
        injection heq with hr1 hrd
        subst hr1
        subst hrd
        by_cases h2 : (r0 :: rtl.take 999).length < pageSize
        · rw [dif_pos h2]
          have hlt : rtl.length ≤ 999 := by
            simp [hps, List.length_take] at h2
            omega
          have ht : rtl.take 999 = rtl := List.take_of_length_le hlt
          simp [ht]
        · rw [dif_neg h2]
          have hrec := exportPages_true_eq (r0 :: rtl) (r0 :: rtl).length 1 (by omega)
          have hd1 : (r0 :: rtl).drop (1 * pageSize) = rtl.drop 999 := by
            rw [Nat.one_mul, hps]
            show (r0 :: rtl).drop (999 + 1) = rtl.drop 999
            rw [Nat.add_comm, ← List.drop_drop, List.drop_one]
            rfl
          rw [hrec, hd1]
          simp only [List.map_cons, List.cons_append, List.nil_append, List.append_assoc]
          rw [← List.map_append, List.take_append_drop]
          simp

/-- Claim C9: for any finite filtered row set the pagination loop
terminates with the header line written exactly once (from the first row
of the first page) followed by exactly one line per matching row in order;
no page exceeds the fixed size 1000, and the loop's continue condition
(`data.length` not short of `pageSize`) holds exactly when the page
returned exactly 1000 rows. -/
theorem export_pagination_spec (table : List DbRow) (cid : String) :
    (exportBuffer table cid =
      (match matchingRows table cid with
       | [] => []
       | r0 :: _ => headerLine r0 :: (matchingRows table cid).map rowLine))
    ∧ (∀ p, (fetchPage (matchingRows table cid) p).length ≤ pageSize)
    ∧ (∀ p, (¬ (fetchPage (matchingRows table cid) p).length < pageSize
        ↔ (fetchPage (matchingRows table cid) p).length = pageSize)) := by
  have hle : ∀ p, (fetchPage (matchingRows table cid) p).length ≤ pageSize := by
    intro p
    rw [fetchPage, List.length_take]
    exact min_le_left _ _
  refine ⟨exportPages_start _, hle, fun p => ?_⟩
  have h := hle p
  omega

/-- Witness for C9: a one-row tenant produces the header line and one data
line. -/
theorem export_pagination_spec_witness :
    exportBuffer demoTable ("c1") = [headerLine demoLead, rowLine demoLead] := by
  have h := (export_pagination_spec demoTable ("c1")).1
  rw [h]
  decide

/-- Claim C8: with zero matching rows the leads export is a silent no-op
(nothing returned, so no artifact and no redirect happen downstream) while
the POC-levels export raises its failure; and whenever any row matches,
the leads export does produce a non-empty artifact buffer. -/
theorem export_empty_divergence (table : List DbRow) (cid : String)
    (h : matchingRows table cid = []) :
    exportLeadsRun table cid = none
    ∧ exportPocRun table cid = Except.error (("No data found for client_id: ") ++ cid)
    ∧ (∀ t c, matchingRows t c ≠ [] → ∃ buf, exportLeadsRun t c = some buf ∧ buf ≠ []) := by
  have hbuf : exportBuffer table cid = [] := by
    rw [exportBuffer, h]
    rw [exportPages]
    have hf : fetchPage ([] : List DbRow) 0 = [] := by simp [fetchPage]
    rw [hf]
  refine ⟨?_, ?_, ?_⟩
  · simp [exportLeadsRun, hbuf]
  · simp [exportPocRun, hbuf]
  · intro t c hne
    cases hm : matchingRows t c with
    | nil => exact absurd hm hne
    | cons r0 rtl =>
        have hb : exportBuffer t c = headerLine r0 :: (r0 :: rtl).map rowLine := by
          rw [exportBuffer, exportPages_start, hm]
        exact ⟨headerLine r0 :: (r0 :: rtl).map rowLine, by simp [exportLeadsRun, hb], by simp⟩

/-- Witness for C8: tenant "zz" matches nothing — leads no-ops, POC raises;
tenant "c1" matches one row and yields a non-empty buffer. -/
theorem export_empty_divergence_witness :
    exportLeadsRun demoTable ("zz") = none
    ∧ exportPocRun demoTable ("zz")
        = Except.error (("No data found for client_id: ") ++ ("zz"))
    ∧ ∃ buf, exportLeadsRun demoTable ("c1") = some buf ∧ buf ≠ [] := by
  have h := export_empty_divergence demoTable ("zz") (by decide)
  exact ⟨h.1, h.2.1, h.2.2 demoTable ("c1") (by decide)⟩
